import Mathlib

/-!
USFshell: a shallow embedding of `usfsh.c`.

The shell reads a line, splits it with `strtok` (`parse_args`) and runs it
(`execute_command`) as a plain program, a redirected program or a two-stage
pipeline, with `exit` and `cd` handled in the interpreter itself.

Modelling conventions.

* A `char*` is `Option String`: `none` is `NULL`.  A `char* []` is a list of such
  slots; reading or writing a slot outside the list, and dereferencing `NULL`,
  is a memory fault.
* Every function is described from the point of view of the one process that
  runs it: it yields the sequence of operating-system operations the process
  performs (`Run.trace`) and how its control flow ends (`Run.outcome`).
  The values the operating system returns (`fork`, `open`, `pipe`, `execvp`)
  come from an `Os` record.
* The trace also logs the calls of the three strategy functions together with
  the arrays they receive, so that statements about which strategy is chosen
  can be read off the trace.
-/

namespace USFshell

/-! ## Constants -/

/-- The constant `MAX_STR_LEN` (`define MAX_STR_LEN 128`): size of the input buffer. -/
def MAX_STR_LEN : Nat := 128

/-- The constant `MAX_ARGS` (`define MAX_ARGS 64`): number of slots of `argv` and `argv1`. -/
def MAX_ARGS : Nat := 64

/-! ## Memory model -/

/-- A `char*`: `none` is the null pointer. -/
abbrev CStr := Option String

/-- A `char* []` array, slot by slot. -/
abbrev Argv := List CStr

/-- Result of a computation that touches memory: a value, a null or out-of-range
access (`fault`), or an iteration bound that ran out (`diverge`). -/
inductive Res (α : Type) where
  | ok (a : α)
  | fault
  | diverge
  deriving DecidableEq, Repr

/-- Bounds-checked write `a[i] = v`. -/
def store (a : Argv) (i : Nat) (v : CStr) : Option Argv :=
  if i < a.length then some (a.set i v) else none

/-- The argument list a `NULL`-terminated `char* []` denotes: the strings before
the first `NULL`.  `none` when the array holds no `NULL` (a reader would run off
its end). -/
def argList : Argv → Option (List String)
  | [] => none
  | none :: _ => some []
  | some s :: rest => (argList rest).map (fun l => s :: l)

/-! ## Operating-system interface -/

/-- The `open(2)` flags the model distinguishes. -/
inductive OFlag where
  | O_CREAT
  | O_WRONLY
  | O_TRUNC
  deriving DecidableEq, Repr

/-- What one process does, in order. -/
inductive Event where
  | printf (s : String)
  | exit (status : Int)
  | chdir (path : CStr)
  | open (path : CStr) (flags : List OFlag) (mode : Nat) (ret : Int)
  | pipe (readEnd writeEnd : Int)
  | fork
  | wait
  | close (fd : Int)
  | dup (fd : Int)
  | execvp (file : String) (argv : Argv)
  | call_execute_program (argv : Argv)
  | call_execute_redirect (argv : Argv) (fd : Int)
  | call_execute_pipe (argv argv1 : Argv)
  deriving DecidableEq, Repr

/-- How the control flow of the process ends inside a function:
it returns to the caller, the process terminates through `exit`, the process
image is replaced by a successful `execvp`, or the process performs a null or
out-of-range memory access. -/
inductive Outcome where
  | returned
  | exited (status : Int)
  | replaced
  | fault
  deriving DecidableEq, Repr

/-- Trace and outcome of running a function in one process. -/
structure Run where
  trace : List Event
  outcome : Outcome
  deriving DecidableEq, Repr

/-- The run `r` preceded by the operations `es`. -/
def Run.after (es : List Event) (r : Run) : Run :=
  ⟨es ++ r.trace, r.outcome⟩

/-- The answers of the operating system.
* `openFile path flags mode`: return value of `open` on a non-null path;
* `forkRet k`: return value of the `k`-th `fork()` of the function being run
  (`0` in the child, the child's pid in the parent, negative on failure);
* `pipeFds`: the two descriptors `pipe` stores in `filedes`;
* `execvpOk file argv`: whether `execvp` finds and starts the program;
* `uninit k`: the indeterminate initial content of slot `k` of a local array. -/
structure Os where
  openFile : String → List OFlag → Nat → Int
  forkRet : Nat → Int
  pipeFds : Int × Int
  execvpOk : String → Argv → Bool
  uninit : Nat → CStr

/-- The call `open(path, flags, mode)`: a null path is rejected by the kernel
(`EFAULT`, return value `-1`). -/
def sys_open (os : Os) (path : CStr) (flags : List OFlag) (mode : Nat) : Int :=
  match path with
  | none => -1
  | some p => os.openFile p flags mode

/-! ## The strategies -/

/-- The block
`if (execvp(argv[0], argv) < 0) { printf("Invalid command '%s'.\n", argv[0]); exit(1); }`
that ends each child branch.  `execvp` reads the characters of its first
argument, so a null `argv[0]` is a null access. -/
def exec_or_exit (os : Os) (argv : Argv) : Run :=
  match argv[0]? with
  | none => ⟨[], .fault⟩
  | some none => ⟨[], .fault⟩
  | some (some file) =>
    if os.execvpOk file argv then
      ⟨[.execvp file argv], .replaced⟩
    else
      ⟨[.execvp file argv, .printf ("Invalid command \x27" ++ file ++ "\x27.\n"), .exit 1],
        .exited 1⟩

/-- The function `void execute_program(char* argv[])`. -/
def execute_program (os : Os) (argv : Argv) : Run :=
  let id := os.forkRet 0
  if id = 0 then
    Run.after [.fork] (exec_or_exit os argv)
  else
    ⟨[.fork, .wait], .returned⟩

/-- The function `void execute_redirect(char* argv[], int fd)`. -/
def execute_redirect (os : Os) (argv : Argv) (fd : Int) : Run :=
  let id := os.forkRet 0
  if id = 0 then
    Run.after [.fork, .close 1, .dup fd, .close fd] (exec_or_exit os argv)
  else
    ⟨[.fork, .close fd, .wait], .returned⟩

/-- The function `void execute_pipe(char* argv[], char* argv1[])`. -/
def execute_pipe (os : Os) (argv argv1 : Argv) : Run :=
  let filedes := os.pipeFds
  let id := os.forkRet 0
  if id = 0 then
    Run.after [.pipe filedes.1 filedes.2, .fork, .close 1, .dup filedes.2, .close filedes.1]
      (exec_or_exit os argv)
  else
    let id := os.forkRet 1
    if id = 0 then
      Run.after [.pipe filedes.1 filedes.2, .fork, .wait, .fork,
          .close 0, .dup filedes.1, .close filedes.2]
        (exec_or_exit os argv1)
    else
      ⟨[.pipe filedes.1 filedes.2, .fork, .wait, .fork,
          .close filedes.1, .close filedes.2, .wait], .returned⟩

/-! ## `execute_command` -/

/-- The inner loop `while (i < argc) { argv1[j] = argv[i]; j++; i++; }` followed by
`argv1[j] = NULL;`.  The first argument counts the iterations left (`argc - i`). -/
def copy_tail : Nat → Argv → Argv → Nat → Nat → Option Argv
  | 0, _, argv1, _, j => store argv1 j none
  | n + 1, argv, argv1, i, j =>
    match argv[i]? with
    | none => none
    | some p =>
      match store argv1 j p with
      | none => none
      | some argv1' => copy_tail n argv argv1' (i + 1) (j + 1)

/-- The loop `for (i = 0; i < argc; i++) { ... }` of `execute_command` together with
the `execute_program(argv)` that follows it.  The first argument counts the
iterations left (`argc - i`). -/
def scan_markers (os : Os) (argc : Nat) : Nat → Argv → Nat → Run
  | 0, argv, _ => Run.after [.call_execute_program argv] (execute_program os argv)
  | n + 1, argv, i =>
    match argv[i]? with
    | none => ⟨[], .fault⟩
    | some none => ⟨[], .fault⟩
    | some (some a) =>
      if a = ">" then
        match argv[i + 1]? with
        | none => ⟨[], .fault⟩
        | some path =>
          let fd_out := sys_open os path [.O_CREAT, .O_WRONLY] 0o644
          if fd_out < 0 then
            ⟨[.open path [.O_CREAT, .O_WRONLY] 0o644 fd_out,
              .printf "No output file specified.\n"], .returned⟩
          else
            match store argv i none with
            | none => ⟨[], .fault⟩
            | some argv' =>
              Run.after [.open path [.O_CREAT, .O_WRONLY] 0o644 fd_out,
                  .call_execute_redirect argv' fd_out]
                (execute_redirect os argv' fd_out)
      else if a = "|" then
        match store argv i none with
        | none => ⟨[], .fault⟩
        | some argv' =>
          match copy_tail (argc - (i + 1)) argv' ((List.range MAX_ARGS).map os.uninit)
              (i + 1) 0 with
          | none => ⟨[], .fault⟩
          | some argv1 =>
            Run.after [.call_execute_pipe argv' argv1] (execute_pipe os argv' argv1)
      else
        scan_markers os argc n argv (i + 1)

/-- The function `void execute_command(char* argv[], int argc)`: `exit` and `cd` first,
then the scan for the first `">"` or `"|"`. -/
def execute_command (os : Os) (argv : Argv) (argc : Nat) : Run :=
  match argv[0]? with
  | none => ⟨[], .fault⟩
  | some none => ⟨[], .fault⟩
  | some (some a0) =>
    if a0 = "exit" then
      ⟨[.printf "Exiting USFshell.\n", .exit 0], .exited 0⟩
    else if a0 = "cd" then
      match argv[1]? with
      | none => ⟨[], .fault⟩
      | some dir => ⟨[.chdir dir], .returned⟩
    else
      scan_markers os argc argc argv 0

/-! ## `parse_args` -/

/-- Membership in the delimiter string `" \n"` passed to `strtok`. -/
def isDelim (c : Char) : Bool := c == ' ' || c == '\n'

/-- First half of `strtok`: advance over delimiter characters.  The result
starts at the first character that is not a delimiter (possibly the terminating
NUL).  Running off the buffer before a NUL is met is an out-of-range read. -/
def skip_delims : List Char → Res (List Char)
  | [] => .fault
  | c :: cs => if isDelim c then skip_delims cs else .ok (c :: cs)

/-- Second half of `strtok`: scan a token up to the next delimiter or the NUL.
A delimiter is overwritten by NUL and the saved position is the character after
it; at the NUL the saved position stays on the NUL.  Yields the token and the
buffer from the saved position on. -/
def scan_token : List Char → Res (List Char × List Char)
  | [] => .fault
  | c :: cs =>
    if c = '\x00' then .ok ([], c :: cs)
    else if isDelim c then .ok ([], cs)
    else
      match scan_token cs with
      | .ok (t, r) => .ok (c :: t, r)
      | .fault => .fault
      | .diverge => .diverge

/-- One call of `strtok(·, " \n")` on the buffer from the current position on:
the token (`none` for a `NULL` return) and the buffer from the saved position
on. -/
def strtok (s : List Char) : Res (Option (List Char) × List Char) :=
  match skip_delims s with
  | .ok (c :: cs) =>
    if c = '\x00' then .ok (none, c :: cs)
    else
      match scan_token (c :: cs) with
      | .ok (t, r) => .ok (some t, r)
      | .fault => .fault
      | .diverge => .diverge
  | .ok [] => .fault
  | .fault => .fault
  | .diverge => .diverge

/-- The loop `while (arg != NULL) { argv[argc] = arg; arg = strtok(NULL, " \n"); argc++; }`
followed by `argv[argc] = NULL; return argc;`.  The first argument bounds the
number of iterations. -/
def parse_loop : Nat → Option (List Char) → List Char → Argv → Nat → Res (Argv × Nat)
  | _, none, _, argv, argc =>
    match store argv argc none with
    | none => .fault
    | some argv' => .ok (argv', argc)
  | 0, some _, _, _, _ => .diverge
  | fuel + 1, some arg, rest, argv, argc =>
    match store argv argc (some (String.mk arg)) with
    | none => .fault
    | some argv' =>
      match strtok rest with
      | .ok (arg', rest') => parse_loop fuel arg' rest' argv' (argc + 1)
      | .fault => .fault
      | .diverge => .diverge

/-- The function `int parse_args(char input[], char* argv[])`: the array after the call and
the returned `argc`.  Every iteration consumes at least one character of the
buffer, so `input.length` iterations are enough. -/
def parse_args (input : List Char) (argv : Argv) : Res (Argv × Nat) :=
  match strtok input with
  | .ok (arg, rest) => parse_loop input.length arg rest argv 0
  | .fault => .fault
  | .diverge => .diverge

/-! ## Files, as `open(2)` and `write(2)` treat them -/

/-- Content of the file right after a successful `open` with the given flags:
`none` is a file that does not exist.  Only `O_TRUNC` discards what was there. -/
def content_after_open (flags : List OFlag) (prior : Option (List Char)) : List Char :=
  match prior with
  | none => []
  | some old => if OFlag.O_TRUNC ∈ flags then [] else old

/-- Content after the bytes `out` are written from offset 0 of a file holding
`content` (a fresh descriptor opened without `O_APPEND` starts at offset 0). -/
def write_from_start (content out : List Char) : List Char :=
  out ++ content.drop out.length

/-- Flags of the first `open` in a trace. -/
def opened_flags : List Event → Option (List OFlag)
  | [] => none
  | .open _ flags _ _ :: _ => some flags
  | _ :: rest => opened_flags rest

/-- Content of the redirection target after a run whose child wrote `out` to its
standard output, when the target held `prior` before. -/
def target_after (r : Run) (prior : Option (List Char)) (out : List Char) :
    Option (List Char) :=
  (opened_flags r.trace).map (fun flags => write_from_start (content_after_open flags prior) out)

/-! ## Specification-side definitions -/

/-- Follows the words of the specification: the maximal runs of characters other than
space and newline, i.e. the pieces between delimiters with the empty pieces
discarded. -/
def maximalRuns (line : List Char) : List (List Char) :=
  (line.splitOnP isDelim).filter (fun t => !t.isEmpty)

/-- A sample environment: every `open` yields descriptor 3, every `fork` returns
pid 100 (parent side), the pipe is `(3, 4)`, every program exists, local arrays
start out null. -/
def os_parent : Os :=
  Os.mk (fun _ _ _ => 3) (fun _ => 100) (3, 4) (fun _ _ => true) (fun _ => none)

/-- The line `a a ... a`: 64 one-character words separated by single spaces,
127 characters in all. -/
def sixty_four_tokens : List Char :=
  (List.replicate 63 ['a', ' ']).flatten ++ ['a']


/-! ## Reading traces -/

/-- The event logs the call of one of the three strategy functions. -/
def Event.isCall : Event → Bool
  | .call_execute_program _ => true
  | .call_execute_redirect _ _ => true
  | .call_execute_pipe _ _ => true
  | _ => false

/-- The event is an `open`. -/
def Event.isOpen : Event → Bool
  | .open _ _ _ _ => true
  | _ => false

/-- The event is a `pipe`. -/
def Event.isPipe : Event → Bool
  | .pipe _ _ => true
  | _ => false

/-- The event is a `fork`. -/
def Event.isFork : Event → Bool
  | .fork => true
  | _ => false

/-- The event is a `wait`. -/
def Event.isWait : Event → Bool
  | .wait => true
  | _ => false

/-! ## Array and scanning lemmas -/

theorem getElem?_mid (pre : Argv) (x : CStr) (post : Argv) :
    (pre ++ x :: post)[pre.length]? = some x := by
  rw [List.getElem?_append_right (le_refl _)]
  simp

theorem getElem?_mid_succ (pre : Argv) (x y : CStr) (post : Argv) :
    (pre ++ x :: y :: post)[pre.length + 1]? = some y := by
  have h : pre ++ x :: y :: post = (pre ++ [x]) ++ y :: post := by simp
  have hl : pre.length + 1 = (pre ++ [x]).length := by simp
  rw [h, hl]
  exact getElem?_mid _ _ _

theorem store_mid (pre : Argv) (x v : CStr) (post : Argv) :
    store (pre ++ x :: post) pre.length v = some (pre ++ v :: post) := by
  simp [store]

theorem argList_tokens (A : List String) (rest : Argv) :
    argList (A.map some ++ none :: rest) = some A := by
  induction A with
  | nil => rfl
  | cons a A ih => simp [argList, ih]

theorem scan_markers_skip (os : Os) (argc : Nat) (A : List String)
    (hgt : ">" ∉ A) (hbar : "|" ∉ A) :
    ∀ (pre post : Argv) (n : Nat),
      scan_markers os argc (A.length + n) (pre ++ A.map some ++ post) pre.length
        = scan_markers os argc n (pre ++ A.map some ++ post) (pre.length + A.length) := by
  induction A with
  | nil => intro pre post n; simp
  | cons a A ih =>
    intro pre post n
    have ha1 : a ≠ ">" := fun h => hgt (by simp [h])
    have ha2 : a ≠ "|" := fun h => hbar (by simp [h])
    have hgt' : ">" ∉ A := fun h => hgt (List.mem_cons_of_mem _ h)
    have hbar' : "|" ∉ A := fun h => hbar (List.mem_cons_of_mem _ h)
    have hlen : (a :: A).length + n = (A.length + n) + 1 := by simp; omega
    have harr : pre ++ List.map some (a :: A) ++ post
        = (pre ++ [some a]) ++ List.map some A ++ post := by simp
    have hget : (pre ++ List.map some (a :: A) ++ post)[pre.length]? = some (some a) := by
      have := getElem?_mid pre (some a) (List.map some A ++ post)
      simpa using this
    rw [hlen, scan_markers, hget]
    simp only [ha1, ha2, if_false]
    have := ih hgt' hbar' (pre ++ [some a]) post n
    rw [harr]
    simp only [List.length_append, List.length_singleton, List.length_cons, List.length_nil, Nat.zero_add] at this ⊢
    rw [this, Nat.add_assoc, Nat.add_comm 1]


theorem execute_command_scan (os : Os) (a : String) (post : Argv) (argc : Nat)
    (hexit : a ≠ "exit") (hcd : a ≠ "cd") :
    execute_command os (some a :: post) argc
      = scan_markers os argc argc (some a :: post) 0 := by
  simp [execute_command, hexit, hcd]

theorem exec_or_exit_filter (os : Os) (argv : Argv) :
    (exec_or_exit os argv).trace.filter Event.isCall = []
    ∧ (exec_or_exit os argv).trace.filter Event.isOpen = []
    ∧ (exec_or_exit os argv).trace.filter Event.isPipe = [] := by
  unfold exec_or_exit
  split
  · simp
  · simp
  · split <;> simp [Event.isCall, Event.isOpen, Event.isPipe]

theorem execute_program_filter (os : Os) (argv : Argv) :
    (execute_program os argv).trace.filter Event.isCall = []
    ∧ (execute_program os argv).trace.filter Event.isOpen = []
    ∧ (execute_program os argv).trace.filter Event.isPipe = [] := by
  obtain ⟨h1, h2, h3⟩ := exec_or_exit_filter os argv
  unfold execute_program
  simp only []
  split <;> simp [Run.after, Event.isCall, Event.isOpen, Event.isPipe, h1, h2, h3]

theorem execute_redirect_filter (os : Os) (argv : Argv) (fd : Int) :
    (execute_redirect os argv fd).trace.filter Event.isCall = []
    ∧ (execute_redirect os argv fd).trace.filter Event.isOpen = []
    ∧ (execute_redirect os argv fd).trace.filter Event.isPipe = [] := by
  obtain ⟨h1, h2, h3⟩ := exec_or_exit_filter os argv
  unfold execute_redirect
  simp only []
  split <;> simp [Run.after, Event.isCall, Event.isOpen, Event.isPipe, h1, h2, h3]

theorem copy_tail_spec (xs : Argv) :
    ∀ (pre post done junk : Argv), xs.length < junk.length →
      copy_tail xs.length (pre ++ xs ++ post) (done ++ junk) pre.length done.length
        = some (done ++ xs ++ none :: junk.drop (xs.length + 1)) := by
  induction xs with
  | nil =>
    intro pre post done junk h
    cases junk with
    | nil => simp at h
    | cons j0 junk => simp [copy_tail, store_mid]
  | cons x xs ih =>
    intro pre post done junk h
    cases junk with
    | nil => simp at h
    | cons j0 junk =>
      have hlen : xs.length < junk.length := by simpa using h
      have hget : (pre ++ x :: xs ++ post)[pre.length]? = some x := by
        have := getElem?_mid pre x (xs ++ post)
        simpa using this
      have h1 : pre ++ x :: xs ++ post = (pre ++ [x]) ++ xs ++ post := by simp
      have h2 : done ++ x :: junk = (done ++ [x]) ++ junk := by simp
      have := ih (pre ++ [x]) post (done ++ [x]) junk hlen
      simp only [List.length_append, List.length_singleton] at this
      simp only [List.length_cons, copy_tail, hget, store_mid]
      rw [h1, h2, this]
      simp

/-! ## Tokenizer lemmas -/

theorem splitOnP_pieces_clean (p : Char → Bool) (L : List Char) :
    ∀ t ∈ L.splitOnP p, ∀ c ∈ t, p c = false := by
  induction L with
  | nil => simp
  | cons x xs ih =>
    rw [List.splitOnP_cons]
    by_cases hx : p x = true
    · rw [if_pos hx]
      intro t ht
      rcases List.mem_cons.mp ht with h | h
      · subst h; simp
      · exact ih t h
    · rw [if_neg hx]
      cases hsp : xs.splitOnP p with
      | nil => exact absurd hsp (List.splitOnP_ne_nil _ _)
      | cons h tl =>
        rw [hsp] at ih
        intro t ht
        simp only [List.modifyHead_cons, List.mem_cons] at ht
        rcases ht with h1 | h1
        · subst h1
          intro c hc
          rcases List.mem_cons.mp hc with h2 | h2
          · subst h2; simpa using hx
          · exact ih h (List.mem_cons_self _ _) c h2
        · exact ih t (List.mem_cons_of_mem _ h1)

theorem flatten_splitOnP (p : Char → Bool) (L : List Char) :
    (L.splitOnP p).flatten = L.filter (fun c => !p c) := by
  induction L with
  | nil => simp
  | cons x xs ih =>
    rw [List.splitOnP_cons]
    by_cases hx : p x = true
    · rw [if_pos hx]
      simp [hx, ih]
    · rw [if_neg hx]
      cases hsp : xs.splitOnP p with
      | nil => exact absurd hsp (List.splitOnP_ne_nil _ _)
      | cons h tl =>
        rw [hsp] at ih
        simp only [List.modifyHead_cons, List.flatten_cons, List.cons_append] at ih ⊢
        rw [ih]
        simp [hx]

theorem flatten_filter_nonempty (ls : List (List Char)) :
    (ls.filter (fun t => !t.isEmpty)).flatten = ls.flatten := by
  induction ls with
  | nil => rfl
  | cons l ls ih =>
    cases l with
    | nil => simpa using ih
    | cons a l => simp [List.filter_cons, ih]

theorem maximalRuns_nil : maximalRuns [] = [] := by
  simp [maximalRuns]

theorem maximalRuns_delim_cons (d : Char) (L : List Char) (hd : isDelim d = true) :
    maximalRuns (d :: L) = maximalRuns L := by
  simp [maximalRuns, hd]

theorem maximalRuns_word (t : List Char) (ht : ∀ c ∈ t, isDelim c = false) (hne : t ≠ []) :
    maximalRuns t = [t] := by
  have h : t.splitOnP isDelim = [t] :=
    List.splitOnP_eq_single isDelim t (fun x hx => by simp [ht x hx])
  unfold maximalRuns
  rw [h]
  cases t with
  | nil => exact absurd rfl hne
  | cons a t => simp [List.filter_cons]

theorem maximalRuns_word_delim (t : List Char) (d : Char) (L : List Char)
    (ht : ∀ c ∈ t, isDelim c = false) (hne : t ≠ []) (hd : isDelim d = true) :
    maximalRuns (t ++ d :: L) = t :: maximalRuns L := by
  have h : (t ++ d :: L).splitOnP isDelim = t :: L.splitOnP isDelim :=
    List.splitOnP_first isDelim t (fun x hx => by simp [ht x hx]) d hd L
  unfold maximalRuns
  rw [h]
  cases t with
  | nil => exact absurd rfl hne
  | cons a t => simp [List.filter_cons]


theorem isDelim_nul : isDelim '\x00' = false := by decide

theorem scan_token_line (tail : List Char) :
    ∀ L : List Char, '\x00' ∉ L →
      ∃ t L', scan_token (L ++ '\x00' :: tail) = .ok (t, L' ++ '\x00' :: tail)
        ∧ (∀ c ∈ t, isDelim c = false)
        ∧ ((L = t ∧ L' = []) ∨ ∃ d, isDelim d = true ∧ L = t ++ d :: L') := by
  intro L
  induction L with
  | nil =>
    intro _
    exact ⟨[], [], by simp [scan_token], by simp, Or.inl ⟨rfl, rfl⟩⟩
  | cons c cs ih =>
    intro hnul
    have hc : c ≠ '\x00' := fun h => hnul (by simp [h])
    have hcs : '\x00' ∉ cs := fun h => hnul (List.mem_cons_of_mem _ h)
    by_cases hd : isDelim c = true
    · exact ⟨[], cs, by simp [scan_token, hc, hd], by simp, Or.inr ⟨c, hd, by simp⟩⟩
    · obtain ⟨t, L', hscan, hclean, hsplit⟩ := ih hcs
      refine ⟨c :: t, L', by simp [scan_token, hc, hd, hscan], ?_, ?_⟩
      · intro x hx
        rcases List.mem_cons.mp hx with h | h
        · subst h; simpa using hd
        · exact hclean x h
      · rcases hsplit with ⟨h1, h2⟩ | ⟨d, h1, h2⟩
        · exact Or.inl ⟨by rw [h1], h2⟩
        · exact Or.inr ⟨d, h1, by rw [h2]; simp⟩

theorem strtok_line (tail : List Char) :
    ∀ L : List Char, '\x00' ∉ L →
      (strtok (L ++ '\x00' :: tail) = .ok (none, '\x00' :: tail) ∧ maximalRuns L = [])
      ∨ ∃ t L', strtok (L ++ '\x00' :: tail) = .ok (some t, L' ++ '\x00' :: tail)
          ∧ '\x00' ∉ L' ∧ L'.length < L.length ∧ maximalRuns L = t :: maximalRuns L' := by
  intro L
  induction L with
  | nil =>
    intro _
    left
    exact ⟨by simp [strtok, skip_delims, isDelim_nul], maximalRuns_nil⟩
  | cons c cs ih =>
    intro hnul
    have hc : c ≠ '\x00' := fun h => hnul (by simp [h])
    have hcs : '\x00' ∉ cs := fun h => hnul (List.mem_cons_of_mem _ h)
    by_cases hd : isDelim c = true
    · have hstep : strtok (c :: cs ++ '\x00' :: tail) = strtok (cs ++ '\x00' :: tail) := by
        simp [strtok, skip_delims, hd]
      rw [hstep, maximalRuns_delim_cons c cs hd]
      rcases ih hcs with h | ⟨t, L', h1, h2, h3, h4⟩
      · exact Or.inl h
      · exact Or.inr ⟨t, L', h1, h2, by simp; omega, h4⟩
    · right
      obtain ⟨t, L', hscan, hclean, hsplit⟩ := scan_token_line tail (c :: cs) hnul
      have ht : t ≠ [] := by
        intro h
        subst h
        rcases hsplit with ⟨h1, _⟩ | ⟨d, h1, h2⟩
        · simp at h1
        · simp only [List.nil_append, List.cons.injEq] at h2
          rw [← h2.1] at h1
          exact hd h1
      have hstrtok : strtok (c :: cs ++ '\x00' :: tail) = .ok (some t, L' ++ '\x00' :: tail) := by
        simp only [List.cons_append] at hscan
        simp [strtok, skip_delims, hd, hc, hscan]
      refine ⟨t, L', hstrtok, ?_, ?_, ?_⟩
      · rcases hsplit with ⟨_, h2⟩ | ⟨d, _, h2⟩
        · simp [h2]
        · intro h
          exact hnul (by rw [h2]; simp [h])
      · rcases hsplit with ⟨_, h2⟩ | ⟨d, _, h2⟩
        · simp [h2]
        · rw [h2]; simp; omega
      · rcases hsplit with ⟨h1, h2⟩ | ⟨d, h1, h2⟩
        · rw [h1, h2, maximalRuns_nil]
          exact maximalRuns_word t hclean ht
        · rw [h2]
          exact maximalRuns_word_delim t d L' hclean ht h1

theorem parse_loop_line (tail : List Char) :
    ∀ (fuel : Nat) (L : List Char) (pre junk : Argv) (arg : Option (List Char))
      (rest : List Char),
      '\x00' ∉ L → L.length ≤ fuel → (maximalRuns L).length < junk.length →
      strtok (L ++ '\x00' :: tail) = .ok (arg, rest) →
      parse_loop fuel arg rest (pre ++ junk) pre.length
        = .ok (pre ++ (maximalRuns L).map (fun t => some (String.mk t))
                ++ none :: junk.drop ((maximalRuns L).length + 1),
              pre.length + (maximalRuns L).length) := by
  intro fuel
  induction fuel with
  | zero =>
    intro L pre junk arg rest hnul hlen hroom hst
    have hL : L = [] := List.length_eq_zero.mp (Nat.le_zero.mp hlen)
    subst hL
    rcases strtok_line tail [] hnul with ⟨h1, h2⟩ | ⟨t, L', _, _, h3, _⟩
    · rw [h1] at hst
      cases hst
      cases junk with
      | nil => simp at hroom
      | cons j0 junk => simp [parse_loop, store_mid, h2]
    · simp at h3
  | succ fuel ih =>
    intro L pre junk arg rest hnul hlen hroom hst
    rcases strtok_line tail L hnul with ⟨h1, h2⟩ | ⟨t, L', h1, h2, h3, h4⟩
    · rw [h1] at hst
      cases hst
      cases junk with
      | nil => simp at hroom
      | cons j0 junk => simp [parse_loop, store_mid, h2]
    · rw [h1] at hst
      cases hst
      rw [h4] at hroom ⊢
      cases junk with
      | nil => simp at hroom
      | cons j0 junk =>
        have hroom' : (maximalRuns L').length < junk.length := by simpa using hroom
        have hlen' : L'.length ≤ fuel := by omega
        rcases hnext : strtok (L' ++ '\x00' :: tail) with ⟨arg', rest'⟩ | _ | _
        · have := ih L' (pre ++ [some (String.mk t)]) junk arg' rest' h2 hlen' hroom' hnext
          simp only [parse_loop, store_mid, hnext]
          simp only [List.append_assoc, List.singleton_append, List.length_append,
            List.length_singleton] at this
          rw [this]
          simp [Nat.add_assoc, Nat.add_comm 1]
        · rcases strtok_line tail L' h2 with ⟨h5, _⟩ | ⟨_, _, h5, _⟩ <;> rw [h5] at hnext <;>
            cases hnext
        · rcases strtok_line tail L' h2 with ⟨h5, _⟩ | ⟨_, _, h5, _⟩ <;> rw [h5] at hnext <;>
            cases hnext

/-! ## The claims -/

/-- Claim C1: for tokens `A ++ [">", path]`, stored in `argv` with the terminating
`NULL` and anything after it, where `A` is non-empty, holds neither `">"` nor
`"|"`, does not start with `exit` or `cd`, and `open` succeeds on `path`:
`execute_command` opens `path` (that `open` is the only one of the run), writes
`NULL` over the marker and calls `execute_redirect` on the array, whose
argument list is then exactly `A`, with the descriptor `open` returned; the
only strategy call of the run is that call of `execute_redirect`. -/
theorem redirect_command_runs_redirect (os : Os) (A : List String) (path : String)
    (rest : Argv) (hne : A ≠ []) (hgt : ">" ∉ A) (hbar : "|" ∉ A)
    (hexit : A.head? ≠ some "exit") (hcd : A.head? ≠ some "cd")
    (hopen : 0 ≤ os.openFile path [.O_CREAT, .O_WRONLY] 0o644) :
    argList (A.map some ++ none :: some path :: none :: rest) = some A
    ∧ execute_command os ((A ++ [">", path]).map some ++ none :: rest) (A ++ [">", path]).length
        = Run.after
            [.open (some path) [.O_CREAT, .O_WRONLY] 0o644
                (os.openFile path [.O_CREAT, .O_WRONLY] 0o644),
              .call_execute_redirect (A.map some ++ none :: some path :: none :: rest)
                (os.openFile path [.O_CREAT, .O_WRONLY] 0o644)]
            (execute_redirect os (A.map some ++ none :: some path :: none :: rest)
              (os.openFile path [.O_CREAT, .O_WRONLY] 0o644))
    ∧ (execute_command os ((A ++ [">", path]).map some ++ none :: rest)
          (A ++ [">", path]).length).trace.filter Event.isOpen
        = [.open (some path) [.O_CREAT, .O_WRONLY] 0o644
            (os.openFile path [.O_CREAT, .O_WRONLY] 0o644)]
    ∧ (execute_command os ((A ++ [">", path]).map some ++ none :: rest)
          (A ++ [">", path]).length).trace.filter Event.isCall
        = [.call_execute_redirect (A.map some ++ none :: some path :: none :: rest)
            (os.openFile path [.O_CREAT, .O_WRONLY] 0o644)] := by
  have hrun : execute_command os ((A ++ [">", path]).map some ++ none :: rest)
        (A ++ [">", path]).length
      = Run.after
            [.open (some path) [.O_CREAT, .O_WRONLY] 0o644
                (os.openFile path [.O_CREAT, .O_WRONLY] 0o644),
              .call_execute_redirect (A.map some ++ none :: some path :: none :: rest)
                (os.openFile path [.O_CREAT, .O_WRONLY] 0o644)]
            (execute_redirect os (A.map some ++ none :: some path :: none :: rest)
              (os.openFile path [.O_CREAT, .O_WRONLY] 0o644)) := by
    have harr : (A ++ [">", path]).map some ++ none :: rest
        = A.map some ++ some ">" :: some path :: none :: rest := by simp
    have hlen : (A ++ [">", path]).length = A.length + 2 := by simp
    have hs := scan_markers_skip os (A.length + 2) A hgt hbar []
      (some ">" :: some path :: none :: rest) 2
    simp only [List.nil_append, List.length_nil, Nat.zero_add] at hs
    have h0 : (A.map some ++ some ">" :: some path :: none :: rest)[A.length]?
        = some (some ">") := by
      have := getElem?_mid (A.map some) (some ">") (some path :: none :: rest)
      simpa using this
    have h1 : (A.map some ++ some ">" :: some path :: none :: rest)[A.length + 1]?
        = some (some path) := by
      have := getElem?_mid_succ (A.map some) (some ">") (some path) (none :: rest)
      simpa using this
    have h2 : store (A.map some ++ some ">" :: some path :: none :: rest) A.length none
        = some (A.map some ++ none :: some path :: none :: rest) := by
      have := store_mid (A.map some) (some ">") none (some path :: none :: rest)
      simpa using this
    rw [harr, hlen]
    cases A with
    | nil => exact absurd rfl hne
    | cons a A' =>
      have e1 : a ≠ "exit" := fun h => hexit (by simp [h])
      have e2 : a ≠ "cd" := fun h => hcd (by simp [h])
      have hc := execute_command_scan os a (A'.map some ++ some ">" :: some path :: none :: rest)
        ((a :: A').length + 2) e1 e2
      simp only [List.map_cons, List.cons_append] at hs h0 h1 h2 hc ⊢
      rw [hc, hs, scan_markers, h0]
      simp only [if_true, h1, sys_open, h2, not_lt.mpr hopen, if_false]
  obtain ⟨h1, h2, h3⟩ := execute_redirect_filter os
    (A.map some ++ none :: some path :: none :: rest)
    (os.openFile path [.O_CREAT, .O_WRONLY] 0o644)
  refine ⟨argList_tokens A _, hrun, ?_, ?_⟩
  · rw [hrun]; simp [Run.after, Event.isOpen, h2]
  · rw [hrun]; simp [Run.after, Event.isCall, h1]

/-- The command `ls -l > out` in a 64-slot array is an instance of claim C1. -/
theorem redirect_command_runs_redirect_witness :
    (["ls", "-l"] : List String) ≠ []
    ∧ ">" ∉ ["ls", "-l"] ∧ "|" ∉ ["ls", "-l"]
    ∧ (["ls", "-l"] : List String).head? ≠ some "exit"
    ∧ (["ls", "-l"] : List String).head? ≠ some "cd"
    ∧ 0 ≤ os_parent.openFile "out" [.O_CREAT, .O_WRONLY] 0o644
    ∧ execute_command os_parent
          ((["ls", "-l"] ++ [">", "out"]).map some ++ none :: List.replicate 59 none)
          (["ls", "-l"] ++ [">", "out"]).length
        = Run.after
            [.open (some "out") [.O_CREAT, .O_WRONLY] 0o644
                (os_parent.openFile "out" [.O_CREAT, .O_WRONLY] 0o644),
              .call_execute_redirect
                (["ls", "-l"].map some ++ none :: some "out" :: none :: List.replicate 59 none)
                (os_parent.openFile "out" [.O_CREAT, .O_WRONLY] 0o644)]
            (execute_redirect os_parent
              (["ls", "-l"].map some ++ none :: some "out" :: none :: List.replicate 59 none)
              (os_parent.openFile "out" [.O_CREAT, .O_WRONLY] 0o644)) :=
  ⟨by decide, by decide, by decide, by decide, by decide, by decide,
    (redirect_command_runs_redirect os_parent ["ls", "-l"] "out" (List.replicate 59 none)
      (by decide) (by decide) (by decide) (by decide) (by decide) (by decide)).2.1⟩

/-- Claim C2: for tokens `A ++ ["|"] ++ B` that fit, with their terminating
`NULL`, the `MAX_ARGS` slots of the array, where `A` is non-empty, holds neither
`">"` nor `"|"` and does not start with `exit` or `cd`: `execute_command` writes
`NULL` over the marker, copies what follows into `argv1` and calls
`execute_pipe`; the left array denotes exactly `A` and the right array exactly
`B`, whatever `B` holds (further `">"` or `"|"` tokens are copied as they are,
and the statement needs no assumption on `B`, so it covers every non-empty `B`). -/
theorem pipe_command_runs_pipe (os : Os) (A B : List String) (rest : Argv)
    (hne : A ≠ []) (hgt : ">" ∉ A) (hbar : "|" ∉ A)
    (hexit : A.head? ≠ some "exit") (hcd : A.head? ≠ some "cd")
    (hfit : (A ++ "|" :: B).length < MAX_ARGS) :
    argList (A.map some ++ none :: (B.map some ++ none :: rest)) = some A
    ∧ argList (B.map some ++ none :: ((List.range MAX_ARGS).map os.uninit).drop (B.length + 1))
        = some B
    ∧ execute_command os ((A ++ "|" :: B).map some ++ none :: rest) (A ++ "|" :: B).length
        = Run.after
            [.call_execute_pipe (A.map some ++ none :: (B.map some ++ none :: rest))
              (B.map some ++ none :: ((List.range MAX_ARGS).map os.uninit).drop (B.length + 1))]
            (execute_pipe os (A.map some ++ none :: (B.map some ++ none :: rest))
              (B.map some ++ none :: ((List.range MAX_ARGS).map os.uninit).drop (B.length + 1)))
      := by
  refine ⟨argList_tokens A _, argList_tokens B _, ?_⟩
  have harr : (A ++ "|" :: B).map some ++ none :: rest
      = A.map some ++ some "|" :: (B.map some ++ none :: rest) := by simp
  have hlen : (A ++ "|" :: B).length = A.length + (B.length + 1) := by simp
  have hs := scan_markers_skip os (A.length + (B.length + 1)) A hgt hbar []
    (some "|" :: (B.map some ++ none :: rest)) (B.length + 1)
  simp only [List.nil_append, List.length_nil, Nat.zero_add] at hs
  have h0 : (A.map some ++ some "|" :: (B.map some ++ none :: rest))[A.length]?
      = some (some "|") := by
    have := getElem?_mid (A.map some) (some "|") (B.map some ++ none :: rest)
    simpa using this
  have h2 : store (A.map some ++ some "|" :: (B.map some ++ none :: rest)) A.length none
      = some (A.map some ++ none :: (B.map some ++ none :: rest)) := by
    have := store_mid (A.map some) (some "|") none (B.map some ++ none :: rest)
    simpa using this
  have hjunk : (B.map some).length < ((List.range MAX_ARGS).map os.uninit).length := by
    simp only [List.length_map, List.length_range]
    rw [hlen] at hfit
    omega
  have hcopy := copy_tail_spec (B.map some) (A.map some ++ [none]) (none :: rest) []
    ((List.range MAX_ARGS).map os.uninit) hjunk
  have hsub : A.length + (B.length + 1) - (A.length + 1) = B.length := by omega
  simp only [List.length_map, List.nil_append, List.length_nil, List.length_append,
    List.length_singleton, List.append_assoc, List.singleton_append] at hcopy
  rw [harr, hlen]
  cases A with
  | nil => exact absurd rfl hne
  | cons a A' =>
    have e1 : a ≠ "exit" := fun h => hexit (by simp [h])
    have e2 : a ≠ "cd" := fun h => hcd (by simp [h])
    have hc := execute_command_scan os a (A'.map some ++ some "|" :: (B.map some ++ none :: rest))
      ((a :: A').length + (B.length + 1)) e1 e2
    simp only [List.map_cons, List.cons_append] at hs h0 h2 hc hcopy ⊢
    rw [hc, hs, scan_markers, h0]
    have hbg : ("|" : String) ≠ ">" := by decide
    simp only [hbg, if_false, if_true, h2, hsub, hcopy]

/-- The command `ls -l | wc -l > x` in a 64-slot array is an instance of claim C2:
the right-hand list keeps its `">"`. -/
theorem pipe_command_runs_pipe_witness :
    (["ls", "-l"] : List String) ≠ []
    ∧ ">" ∉ ["ls", "-l"] ∧ "|" ∉ ["ls", "-l"]
    ∧ (["ls", "-l"] : List String).head? ≠ some "exit"
    ∧ (["ls", "-l"] : List String).head? ≠ some "cd"
    ∧ (["ls", "-l"] ++ "|" :: ["wc", "-l", ">", "x"]).length < MAX_ARGS
    ∧ argList (["wc", "-l", ">", "x"].map some
          ++ none :: ((List.range MAX_ARGS).map os_parent.uninit).drop
              (["wc", "-l", ">", "x"].length + 1))
        = some ["wc", "-l", ">", "x"] :=
  ⟨by decide, by decide, by decide, by decide, by decide, by decide,
    (pipe_command_runs_pipe os_parent ["ls", "-l"] ["wc", "-l", ">", "x"]
      (List.replicate 56 none)
      (by decide) (by decide) (by decide) (by decide) (by decide) (by decide)).2.1⟩

/-- Claim C3: for a non-empty token sequence without `">"` and `"|"` whose first
token is neither `exit` nor `cd`, stored in `argv` with the terminating `NULL`
and anything after it: the array denotes the full token sequence, and
`execute_command` does nothing but call `execute_program` on it; that call is
the only strategy call of the run, and the run contains no `open` and no
`pipe`. -/
theorem plain_command_runs_program (os : Os) (toks : List String) (rest : Argv)
    (hne : toks ≠ []) (hgt : ">" ∉ toks) (hbar : "|" ∉ toks)
    (hexit : toks.head? ≠ some "exit") (hcd : toks.head? ≠ some "cd") :
    argList (toks.map some ++ none :: rest) = some toks
    ∧ execute_command os (toks.map some ++ none :: rest) toks.length
        = Run.after [.call_execute_program (toks.map some ++ none :: rest)]
            (execute_program os (toks.map some ++ none :: rest))
    ∧ (execute_command os (toks.map some ++ none :: rest) toks.length).trace.filter Event.isCall
        = [.call_execute_program (toks.map some ++ none :: rest)]
    ∧ (execute_command os (toks.map some ++ none :: rest) toks.length).trace.filter Event.isOpen
        = []
    ∧ (execute_command os (toks.map some ++ none :: rest) toks.length).trace.filter Event.isPipe
        = [] := by
  have hrun : execute_command os (toks.map some ++ none :: rest) toks.length
        = Run.after [.call_execute_program (toks.map some ++ none :: rest)]
            (execute_program os (toks.map some ++ none :: rest)) := by
    cases toks with
    | nil => exact absurd rfl hne
    | cons a A =>
      have h1 : a ≠ "exit" := fun h => hexit (by simp [h])
      have h2 : a ≠ "cd" := fun h => hcd (by simp [h])
      have hs := scan_markers_skip os (a :: A).length (a :: A) hgt hbar [] (none :: rest) 0
      simp only [List.nil_append, List.length_nil, Nat.add_zero, Nat.zero_add] at hs
      have hc := execute_command_scan os a (A.map some ++ none :: rest) (a :: A).length h1 h2
      simp only [List.map_cons, List.cons_append] at hs ⊢
      rw [hc, hs, scan_markers]
  obtain ⟨h1, h2, h3⟩ := execute_program_filter os (toks.map some ++ none :: rest)
  refine ⟨argList_tokens toks rest, hrun, ?_, ?_, ?_⟩
  · rw [hrun]; simp [Run.after, Event.isCall, h1]
  · rw [hrun]; simp [Run.after, Event.isOpen, h2]
  · rw [hrun]; simp [Run.after, Event.isPipe, h3]

/-- The command `ls -l` in a 64-slot array is an instance of claim C3. -/
theorem plain_command_runs_program_witness :
    (["ls", "-l"] : List String) ≠ []
    ∧ ">" ∉ ["ls", "-l"] ∧ "|" ∉ ["ls", "-l"]
    ∧ (["ls", "-l"] : List String).head? ≠ some "exit"
    ∧ (["ls", "-l"] : List String).head? ≠ some "cd"
    ∧ execute_command os_parent (["ls", "-l"].map some ++ none :: List.replicate 61 none)
          ["ls", "-l"].length
        = Run.after
            [.call_execute_program (["ls", "-l"].map some ++ none :: List.replicate 61 none)]
            (execute_program os_parent
              (["ls", "-l"].map some ++ none :: List.replicate 61 none)) :=
  ⟨by decide, by decide, by decide, by decide, by decide,
    (plain_command_runs_program os_parent ["ls", "-l"] (List.replicate 61 none)
      (by decide) (by decide) (by decide) (by decide) (by decide)).2.1⟩

/-- Claim C4, as stated, fails on `exit >`: the first marker is a `">"` that is the
last token, yet `execute_command` prints the exit notice and terminates the
interpreter; `No output file specified.` is not printed and the function does
not return to the loop. -/
theorem exit_precedes_missing_target :
    ">" ∉ ["exit"] ∧ "|" ∉ ["exit"]
    ∧ execute_command os_parent
          ((["exit"] ++ [">"]).map some ++ none :: List.replicate 61 none)
          (["exit"] ++ [">"]).length
        = ⟨[.printf "Exiting USFshell.\n", .exit 0], .exited 0⟩
    ∧ Event.printf "No output file specified.\n" ∉
        (execute_command os_parent
          ((["exit"] ++ [">"]).map some ++ none :: List.replicate 61 none)
          (["exit"] ++ [">"]).length).trace
    ∧ (execute_command os_parent
          ((["exit"] ++ [">"]).map some ++ none :: List.replicate 61 none)
          (["exit"] ++ [">"]).length).outcome ≠ .returned := by
  decide

/-- Claim C4, amended: for tokens `A ++ [">"]` where `A` holds neither `">"` nor
`"|"` and does not start with `exit` or `cd` (`A` may be empty), stored in
`argv` with the terminating `NULL`: `execute_command` passes that `NULL` to
`open`, which fails, prints `No output file specified.` and returns; the run
consists of these two operations only, so nothing is forked. -/
theorem missing_redirect_target_reported (os : Os) (A : List String) (rest : Argv)
    (hgt : ">" ∉ A) (hbar : "|" ∉ A)
    (hexit : A.head? ≠ some "exit") (hcd : A.head? ≠ some "cd") :
    execute_command os ((A ++ [">"]).map some ++ none :: rest) (A ++ [">"]).length
      = ⟨[.open none [.O_CREAT, .O_WRONLY] 0o644 (-1),
          .printf "No output file specified.\n"], .returned⟩ := by
  have harr : (A ++ [">"]).map some ++ none :: rest
      = A.map some ++ some ">" :: none :: rest := by simp
  have hlen : (A ++ [">"]).length = A.length + 1 := by simp
  have hs := scan_markers_skip os (A.length + 1) A hgt hbar []
    (some ">" :: none :: rest) 1
  simp only [List.nil_append, List.length_nil, Nat.zero_add] at hs
  have h0 : (A.map some ++ some ">" :: none :: rest)[A.length]?
      = some (some ">") := by
    have := getElem?_mid (A.map some) (some ">") (none :: rest)
    simpa using this
  have h1 : (A.map some ++ some ">" :: none :: rest)[A.length + 1]?
      = some none := by
    have := getElem?_mid_succ (A.map some) (some ">") none rest
    simpa using this
  rw [harr, hlen]
  have hscan : scan_markers os (A.length + 1) (A.length + 1)
      (A.map some ++ some ">" :: none :: rest) 0
      = ⟨[.open none [.O_CREAT, .O_WRONLY] 0o644 (-1),
          .printf "No output file specified.\n"], .returned⟩ := by
    rw [hs, scan_markers, h0]
    simp [h1, sys_open]
  cases A with
  | nil =>
    simp only [List.map_nil, List.nil_append, List.length_nil, Nat.zero_add] at hscan ⊢
    have e1 : (">" : String) ≠ "exit" := by decide
    have e2 : (">" : String) ≠ "cd" := by decide
    rw [execute_command_scan os ">" (none :: rest) 1 e1 e2, hscan]
  | cons a A' =>
    have e1 : a ≠ "exit" := fun h => hexit (by simp [h])
    have e2 : a ≠ "cd" := fun h => hcd (by simp [h])
    have hc := execute_command_scan os a (A'.map some ++ some ">" :: none :: rest)
      ((a :: A').length + 1) e1 e2
    simp only [List.map_cons, List.cons_append] at hscan hc ⊢
    rw [hc, hscan]

/-- The command `ls >` in a 64-slot array is an instance of the amended claim C4. -/
theorem missing_redirect_target_reported_witness :
    ">" ∉ ["ls"] ∧ "|" ∉ ["ls"]
    ∧ (["ls"] : List String).head? ≠ some "exit"
    ∧ (["ls"] : List String).head? ≠ some "cd"
    ∧ execute_command os_parent ((["ls"] ++ [">"]).map some ++ none :: List.replicate 61 none)
          (["ls"] ++ [">"]).length
        = ⟨[.open none [.O_CREAT, .O_WRONLY] 0o644 (-1),
            .printf "No output file specified.\n"], .returned⟩ :=
  ⟨by decide, by decide, by decide, by decide,
    missing_redirect_target_reported os_parent ["ls"] (List.replicate 61 none)
      (by decide) (by decide) (by decide) (by decide)⟩

/-- Claim C5: for all arrays `argv` and `argv1`, when both `fork` calls return a
positive pid, the process that called `execute_pipe` performs exactly: `pipe`,
`fork`, `wait`, `fork`, `close` of the read end, `close` of the write end,
`wait`, and returns; the run has two `fork`s and two `wait`s. -/
theorem pipe_parent_sequence (os : Os) (argv argv1 : Argv)
    (hleft : 0 < os.forkRet 0) (hright : 0 < os.forkRet 1) :
    execute_pipe os argv argv1
      = ⟨[.pipe os.pipeFds.1 os.pipeFds.2, .fork, .wait, .fork,
          .close os.pipeFds.1, .close os.pipeFds.2, .wait], .returned⟩
    ∧ (execute_pipe os argv argv1).trace.countP Event.isFork = 2
    ∧ (execute_pipe os argv argv1).trace.countP Event.isWait = 2 := by
  have h : execute_pipe os argv argv1
      = ⟨[.pipe os.pipeFds.1 os.pipeFds.2, .fork, .wait, .fork,
          .close os.pipeFds.1, .close os.pipeFds.2, .wait], .returned⟩ := by
    simp [execute_pipe, ne_of_gt hleft, ne_of_gt hright]
  refine ⟨h, ?_, ?_⟩ <;> rw [h] <;> simp [List.countP_cons, Event.isFork, Event.isWait]

/-- Claim C5 at `ls | wc` in the sample environment. -/
theorem pipe_parent_sequence_witness :
    0 < os_parent.forkRet 0 ∧ 0 < os_parent.forkRet 1
    ∧ execute_pipe os_parent [some "ls", none] [some "wc", none]
        = ⟨[.pipe os_parent.pipeFds.1 os_parent.pipeFds.2, .fork, .wait, .fork,
            .close os_parent.pipeFds.1, .close os_parent.pipeFds.2, .wait], .returned⟩ :=
  ⟨by decide, by decide,
    (pipe_parent_sequence os_parent [some "ls", none] [some "wc", none]
      (by decide) (by decide)).1⟩

/-- Claim C6 on the code: for `echo hi > f` the target is opened with `O_CREAT` and
`O_WRONLY` only.  When `f` held `hello` and a newline and the child writes `hi`
and a newline, the file ends up holding `hi`, newline, `lo`, newline: the last
three bytes of the old content remain.  In general the old bytes beyond the
length of the output stay in the file. -/
theorem redirect_keeps_old_bytes :
    opened_flags (execute_command os_parent
        ([some "echo", some "hi", some ">", some "f"] ++ List.replicate 60 none) 4).trace
      = some [.O_CREAT, .O_WRONLY]
    ∧ target_after (execute_command os_parent
          ([some "echo", some "hi", some ">", some "f"] ++ List.replicate 60 none) 4)
        (some ['h', 'e', 'l', 'l', 'o', '\n']) ['h', 'i', '\n']
      = some ['h', 'i', '\n', 'l', 'o', '\n']
    ∧ ∀ old out : List Char,
        target_after (execute_command os_parent
            ([some "echo", some "hi", some ">", some "f"] ++ List.replicate 60 none) 4)
          (some old) out
        = some (out ++ old.drop out.length) := by
  have h : opened_flags (execute_command os_parent
        ([some "echo", some "hi", some ">", some "f"] ++ List.replicate 60 none) 4).trace
      = some [.O_CREAT, .O_WRONLY] := by decide
  refine ⟨h, by decide, ?_⟩
  intro old out
  unfold target_after
  rw [h]
  simp [content_after_open, write_from_start]

/-- Claim C7: built-ins come before the scan for markers.  Whatever follows a first
token `exit`, and whatever `argc` is, `execute_command` prints the exit notice
and terminates the process with status 0, and does nothing else.  Whatever
follows a first token `cd` and a second token `dir`, `execute_command` calls
`chdir(dir)`, does nothing else and returns. -/
theorem builtins_before_classification :
    (∀ (os : Os) (rest : Argv) (argc : Nat),
      execute_command os (some "exit" :: rest) argc
        = ⟨[.printf "Exiting USFshell.\n", .exit 0], .exited 0⟩)
    ∧ (∀ (os : Os) (dir : String) (rest : Argv) (argc : Nat),
      execute_command os (some "cd" :: some dir :: rest) argc
        = ⟨[.chdir (some dir)], .returned⟩) := by
  constructor
  · intro os rest argc
    simp [execute_command]
  · intro os dir rest argc
    have h : ("cd" : String) ≠ "exit" := by decide
    simp [execute_command, h]

set_option maxRecDepth 100000 in
/-- Claim C8 on the code: for an empty line `parse_args` returns `argc = 0` and
leaves `argv[0]` null, and `execute_command` then hands that null pointer to
`strcmp`: a null access, for every array whose first slot is null.  For `ls |`
the array passed to `execute_pipe` as right-hand side denotes the empty
argument list. -/
theorem empty_line_null_access :
    parse_args ('\n' :: List.replicate 127 '\x00') (List.replicate MAX_ARGS none)
      = .ok (List.replicate MAX_ARGS none, 0)
    ∧ execute_command os_parent (List.replicate MAX_ARGS none) 0 = ⟨[], .fault⟩
    ∧ (∀ (os : Os) (rest : Argv) (argc : Nat),
        execute_command os (none :: rest) argc = ⟨[], .fault⟩)
    ∧ (execute_command os_parent ([some "ls", some "|"] ++ List.replicate 62 none) 2).trace.head?
        = some (.call_execute_pipe (some "ls" :: List.replicate 63 none)
            (List.replicate 64 none))
    ∧ argList (List.replicate 64 none) = some [] := by
  refine ⟨by decide, by decide, ?_, by decide, by decide⟩
  intro os rest argc
  simp [execute_command]

/-- Claim C9: for a buffer holding `line`, a NUL and anything after it, `line` being
free of NUL, and an array with more slots than `line` has maximal runs of
characters other than space and newline: `parse_args` returns the number of
those runs, stores them in order in the first slots of the array, stores `NULL`
in the slot after them and leaves the later slots as they were.  Every run is
non-empty and holds neither a space nor a newline, and the runs concatenated
are the line without its spaces and newlines. -/
theorem parse_args_maximal_runs (line tail : List Char) (argv : Argv)
    (hnul : '\x00' ∉ line) (hroom : (maximalRuns line).length < argv.length) :
    parse_args (line ++ '\x00' :: tail) argv
      = .ok ((maximalRuns line).map (fun t => some (String.mk t))
              ++ none :: argv.drop ((maximalRuns line).length + 1),
            (maximalRuns line).length)
    ∧ (∀ t ∈ maximalRuns line, t ≠ [] ∧ ' ' ∉ t ∧ '\n' ∉ t)
    ∧ (maximalRuns line).flatten = line.filter (fun c => c != ' ' && c != '\n') := by
  refine ⟨?_, ?_, ?_⟩
  · unfold parse_args
    rcases hst : strtok (line ++ '\x00' :: tail) with ⟨arg, rest⟩ | _ | _
    · have hfuel : line.length ≤ (line ++ '\x00' :: tail).length := by simp
      have := parse_loop_line tail (line ++ '\x00' :: tail).length line [] argv arg rest
        hnul hfuel hroom hst
      simpa using this
    · rcases strtok_line tail line hnul with ⟨h, _⟩ | ⟨_, _, h, _⟩ <;> rw [h] at hst <;>
        cases hst
    · rcases strtok_line tail line hnul with ⟨h, _⟩ | ⟨_, _, h, _⟩ <;> rw [h] at hst <;>
        cases hst
  · intro t ht
    unfold maximalRuns at ht
    rw [List.mem_filter] at ht
    obtain ⟨hmem, hne⟩ := ht
    have hclean := splitOnP_pieces_clean isDelim line t hmem
    refine ⟨?_, ?_, ?_⟩
    · intro h
      subst h
      simp at hne
    · intro h
      have := hclean ' ' h
      simp [isDelim] at this
    · intro h
      have := hclean '\n' h
      simp [isDelim] at this
  · unfold maximalRuns
    rw [flatten_filter_nonempty, flatten_splitOnP]
    congr 1
    funext c
    simp [isDelim, bne]

/-- Claim C9 at the line `ls -l` followed by a newline, in a 64-slot array. -/
theorem parse_args_maximal_runs_witness :
    '\x00' ∉ ['l', 's', ' ', '-', 'l', '\n']
    ∧ (maximalRuns ['l', 's', ' ', '-', 'l', '\n']).length
        < (List.replicate MAX_ARGS (none : CStr)).length
    ∧ parse_args (['l', 's', ' ', '-', 'l', '\n'] ++ '\x00' :: [])
          (List.replicate MAX_ARGS none)
        = .ok ((maximalRuns ['l', 's', ' ', '-', 'l', '\n']).map (fun t => some (String.mk t))
                ++ none :: (List.replicate MAX_ARGS none).drop
                    ((maximalRuns ['l', 's', ' ', '-', 'l', '\n']).length + 1),
              (maximalRuns ['l', 's', ' ', '-', 'l', '\n']).length) :=
  ⟨by decide, by decide,
    (parse_args_maximal_runs ['l', 's', ' ', '-', 'l', '\n'] [] (List.replicate MAX_ARGS none)
      (by decide) (by decide)).1⟩

set_option maxRecDepth 100000 in
/-- Claim C10 on the code: the NUL-terminated line of 64 one-letter words fills the
`MAX_STR_LEN` bytes of the input buffer and has `MAX_ARGS` words.  With a
`MAX_ARGS`-slot array `parse_args` ends in an out-of-range write (the
terminating `NULL` goes to slot `MAX_ARGS`); with one slot more it returns
`argc = MAX_ARGS`. -/
theorem sixty_four_tokens_overflow :
    (sixty_four_tokens ++ ['\x00']).length = MAX_STR_LEN
    ∧ '\x00' ∉ sixty_four_tokens
    ∧ (maximalRuns sixty_four_tokens).length = MAX_ARGS
    ∧ parse_args (sixty_four_tokens ++ ['\x00']) (List.replicate MAX_ARGS none) = .fault
    ∧ parse_args (sixty_four_tokens ++ ['\x00']) (List.replicate (MAX_ARGS + 1) none)
        = .ok (List.replicate MAX_ARGS (some "a") ++ [none], MAX_ARGS) := by
  decide

end USFshell
